import Mathlib

/-!
# Verification of the flotta-bot report and entry pipeline

Shallow embedding of `src/bot.py`: the monthly-report pipeline
(`generate_report`) and the start of the guided entry flow (`nuovo_start`).

Raw sheet rows are modelled as optional cells (a `none` cell is pandas `NaN`,
arising when a row's mapping lacks that column).  The pandas column
operations of `generate_report` are modelled cell-wise, which is equivalent
because every column transform in the source acts element-wise.
-/

namespace FlottaBot

/-- A calendar date, as produced by the date parser (`pd.to_datetime`). -/
structure Date where
  year : Nat
  month : Nat
  day : Nat
  deriving DecidableEq, Repr

/-- A raw cell of the `DATA` column: either an unparsed string (as delivered
by `sheet.get_all_records()`) or an already-parsed timestamp (as found in a
dataframe that has already been through `pd.to_datetime`). -/
inductive CellVal where
  | str (s : String)
  | date (d : Date)
  deriving DecidableEq, Repr

/-- One raw row of the sheet (`sheet.get_all_records()` item restricted to
the columns the code reads).  A `none` field means the row's mapping has no
such key, so the dataframe cell is `NaN`. -/
structure RawRow where
  data? : Option CellVal
  driver? : Option String
  targa? : Option String
  deriving DecidableEq, Repr

/-- One normalized dataframe row surviving
`df.dropna(subset=['DATA', 'DRIVER', 'TARGA'])`. -/
structure NormRow where
  data : Date
  driver : String
  targa : String
  deriving DecidableEq, Repr

/-! ## String primitives (Python semantics, character-wise) -/

/-- ASCII uppercasing of one character, as Python's `str.upper` acts on the
ASCII letters. -/
def upChar (c : Char) : Char :=
  if 97 ≤ c.toNat ∧ c.toNat ≤ 122 then Char.ofNat (c.toNat - 32) else c

/-- Python `str.upper()`. -/
def pyUpper (s : String) : String := ⟨s.data.map upChar⟩

/-- Character-list form of Python `str.strip()`. -/
def stripData (l : List Char) : List Char :=
  List.rdropWhile (·.isWhitespace) (l.dropWhile (·.isWhitespace))

/-- Python `str.strip()`: remove leading and trailing whitespace. -/
def pyStrip (s : String) : String := ⟨stripData s.data⟩

/-- Python `str.replace(' ', '')`: remove every space character (only
`U+0020`, not other whitespace). -/
def stripSpaces (s : String) : String := ⟨s.data.filter (· ≠ ' ')⟩

/-- Python's `<` on strings, on the underlying character lists:
lexicographic comparison of code points. -/
def strLtB : List Char → List Char → Bool
  | [], [] => false
  | [], _ :: _ => true
  | _ :: _, [] => false
  | c :: cs, d :: ds =>
    if c.toNat < d.toNat then true
    else if d.toNat < c.toNat then false
    else strLtB cs ds

/-- Python's `a < b` on strings. -/
def pyLt (a b : String) : Prop := strLtB a.data b.data = true

/-- Python's `a <= b` on strings (the order used by `sorted`). -/
def pyLe (a b : String) : Prop := strLtB b.data a.data = false

instance : DecidableRel pyLt := fun a b =>
  inferInstanceAs (Decidable (strLtB a.data b.data = true))

instance : DecidableRel pyLe := fun a b =>
  inferInstanceAs (Decidable (strLtB b.data a.data = false))

/-- Pandas `astype(str)` on one cell: a missing cell (`NaN`) renders as the
string `"nan"`; a string cell is unchanged. -/
def astypeStr : Option String → String
  | none => "nan"
  | some s => s

/-- Digit-string to number (helper of the date parser). -/
def digitsToNat? : List Char → Option Nat
  | [] => none
  | l =>
    if l.all (·.isDigit) then
      some (l.foldl (fun a c => 10 * a + (c.toNat - 48)) 0)
    else none

/-- The permissive calendar-date parser, abstracting
`pd.to_datetime(_, errors='coerce')` on the ISO `YYYY-MM-DD` layout:
an unparsable string yields `none` (pandas `NaT`). -/
def parseDate (s : String) : Option Date :=
  match s.data.splitOn '-' with
  | [y, m, d] =>
    match digitsToNat? y, digitsToNat? m, digitsToNat? d with
    | some yn, some mn, some dn =>
      if 1 ≤ mn ∧ mn ≤ 12 ∧ 1 ≤ dn ∧ dn ≤ 31 then some ⟨yn, mn, dn⟩ else none
    | _, _, _ => none
  | _ => none

/-- `pd.to_datetime(cell, errors='coerce')` on one `DATA` cell: `NaN` stays
`NaT`, a string is parsed, an already-parsed timestamp is left unchanged. -/
def toDatetime : Option CellVal → Option Date
  | none => none
  | some (.str s) => parseDate s
  | some (.date d) => some d

/-- `DRIVER` column transform: `astype(str).str.strip().str.upper()`. -/
def normDriver (c : Option String) : String := pyUpper (pyStrip (astypeStr c))

/-- `TARGA` column transform: `astype(str).str.replace(' ', '').str.upper()`. -/
def normTarga (c : Option String) : String := pyUpper (stripSpaces (astypeStr c))

/-! ## The normalization step of `generate_report` (lines 72-75) -/

/-- Row-wise effect of lines 72-75 of `generate_report`: the three column
transforms followed by `dropna(subset=['DATA', 'DRIVER', 'TARGA'])`.  After
`astype(str)` the `DRIVER` and `TARGA` cells are strings, never `NaN`, so
only a `NaT` date can make `dropna` discard the row. -/
def normalizeRow (r : RawRow) : Option NormRow :=
  match toDatetime r.data? with
  | none => none
  | some d => some ⟨d, normDriver r.driver?, normTarga r.targa?⟩

/-- The Normalizer contract `normalize(rawRows) -> (records, droppedCount)`:
the surviving rows of lines 72-75, paired with how many rows `dropna`
removed (the count itself is the spec's packaging of the source's
`dropna`, which discards rows without counting them). -/
def normalize (rows : List RawRow) : List NormRow × Nat :=
  (rows.filterMap normalizeRow,
    rows.length - (rows.filterMap normalizeRow).length)

/-- Whether a column is present in `pd.DataFrame(records)`: the dataframe's
columns are the union of the row mappings' keys. -/
def colPresent (f : RawRow → Option α) (rows : List RawRow) : Bool :=
  rows.any (fun r => (f r).isSome)

/-- `all(col in df.columns for col in ['DATA', 'DRIVER', 'TARGA'])`. -/
def hasRequiredCols (rows : List RawRow) : Bool :=
  colPresent (·.data?) rows && colPresent (·.driver?) rows
    && colPresent (·.targa?) rows

/-- `df[(df['DATA'].dt.month == mese) & (df['DATA'].dt.year == anno)]`. -/
def periodFilter (recs : List NormRow) (mese anno : Nat) : List NormRow :=
  recs.filter (fun r => r.data.month = mese ∧ r.data.year = anno)

/-! ## Aggregation (lines 83-88) -/

/-- Helper of `uniqueList`, carrying the set of values already seen. -/
def uniqueAux [DecidableEq α] (seen : List α) : List α → List α
  | [] => []
  | x :: xs => if x ∈ seen then uniqueAux seen xs else x :: uniqueAux (x :: seen) xs

/-- Pandas `unique()`: the distinct values in first-encounter order. -/
def uniqueList [DecidableEq α] (l : List α) : List α := uniqueAux [] l

/-- One output row of the aggregation: the `groupby(['DRIVER', 'TARGA'])`
key together with `GIORNI` (the `size` aggregate) and `ELENCO_GIORNI`
(the distinct day-of-month values, in encounter order, before joining). -/
structure ReportGroup where
  driver : String
  targa : String
  giorni : Nat
  elencoGiorni : List Nat
  deriving DecidableEq, Repr

/-- The `groupby` key of a normalized row. -/
def keyOf (r : NormRow) : String × String := (r.driver, r.targa)

/-- The rows of one `(DRIVER, TARGA)` group. -/
def groupRows (recs : List NormRow) (k : String × String) : List NormRow :=
  recs.filter (fun r => r.driver = k.1 ∧ r.targa = k.2)

/-- The aggregates computed for one group:
`GIORNI=('DATA', 'size')` is the number of rows of the group, and
`ELENCO_GIORNI` collects `x.dt.day.unique()`. -/
def mkGroup (recs : List NormRow) (k : String × String) : ReportGroup :=
  ⟨k.1, k.2, (groupRows recs k).length,
    uniqueList ((groupRows recs k).map (fun r => r.data.day))⟩

/-- Ascending order on `groupby` keys (pandas sorts group keys). -/
def keyLE (a b : String × String) : Prop :=
  pyLt a.1 b.1 ∨ (a.1 = b.1 ∧ pyLe a.2 b.2)

instance : DecidableRel keyLE := fun a b =>
  inferInstanceAs (Decidable (pyLt a.1 b.1 ∨ (a.1 = b.1 ∧ pyLe a.2 b.2)))

/-- The `sort_values(['DRIVER', 'GIORNI'], ascending=[True, False])` order:
driver ascending, then day count descending. -/
def groupLE (a b : ReportGroup) : Prop :=
  pyLt a.driver b.driver ∨ (a.driver = b.driver ∧ b.giorni ≤ a.giorni)

instance : DecidableRel groupLE := fun a b =>
  inferInstanceAs
    (Decidable (pyLt a.driver b.driver ∨ (a.driver = b.driver ∧ b.giorni ≤ a.giorni)))

/-- Lines 83-88 of `generate_report`: group the filtered rows by
`(DRIVER, TARGA)`, aggregate each group, and sort by driver ascending and
`GIORNI` descending.  Ties of both sort keys are left in a deterministic
(stable) order; the source's `sort_values` leaves their order unspecified. -/
def aggregate (recs : List NormRow) : List ReportGroup :=
  let keys := List.insertionSort keyLE (uniqueList (recs.map keyOf))
  List.insertionSort groupLE (keys.map (mkGroup recs))

/-! ## Formatting and the full report operation -/

/-- `datetime(anno, mese, 1).strftime('%B')` under the default C locale. -/
def monthName : Nat → String
  | 1 => "January"
  | 2 => "February"
  | 3 => "March"
  | 4 => "April"
  | 5 => "May"
  | 6 => "June"
  | 7 => "July"
  | 8 => "August"
  | 9 => "September"
  | 10 => "October"
  | 11 => "November"
  | 12 => "December"
  | _ => ""

/-- `', '.join(map(str, days))`. -/
def joinDays (l : List Nat) : String :=
  String.intercalate ", " (l.map toString)

/-- The `%02d` rendering of the month in the no-data-for-period message. -/
def pad2 (n : Nat) : String :=
  if n < 10 then "0" ++ toString n else toString n

/-- Lines 91-95: the header plus one block per group. -/
def formatReport (groups : List ReportGroup) (mese anno : Nat) : String :=
  groups.foldl
    (fun acc g =>
      acc ++ "👤 " ++ g.driver ++ "\n🚗 " ++ g.targa ++ ": "
        ++ toString g.giorni ++ " giorni (" ++ joinDays g.elencoGiorni ++ ")\n\n")
    ("📊 Report " ++ monthName mese ++ " " ++ toString anno ++ "\n\n")

/-- Result of `sheet.get_all_records()`: either the raw rows, or a raised
exception (store unavailable etc.) that the surrounding `try` catches. -/
inductive FetchResult where
  | ok (rows : List RawRow)
  | error (msg : String)
  deriving DecidableEq, Repr

/-- `generate_report(context, mese, anno)`: returns the
`(report_msg, status)` pair.  All failure paths of the source's `try` body
are explicit branches; a raised store exception lands in the `except`
clause, which returns an empty report and an error status. -/
def generate_report (fetch : FetchResult) (mese anno : Nat) : String × String :=
  match fetch with
  | .error e => ("", "❌ Errore: " ++ e)
  | .ok records =>
    if records.isEmpty then ("", "ℹ️ Nessun dato trovato")
    else if !hasRequiredCols records then ("", "❌ Intestazioni mancanti")
    else if (periodFilter (normalize records).1 mese anno).isEmpty then
      ("", "ℹ️ Nessun dato per " ++ pad2 mese ++ "/" ++ toString anno)
    else
      (formatReport (aggregate (periodFilter (normalize records).1 mese anno)) mese anno,
        "✅ Report generato")

/-- The normalized rows of the requested period, as seen by lines 83-88. -/
def filteredRecs (rows : List RawRow) (mese anno : Nat) : List NormRow :=
  periodFilter (normalize rows).1 mese anno

/-- The aggregation output underlying the report for a raw record set. -/
def reportGroupsOf (rows : List RawRow) (mese anno : Nat) : List ReportGroup :=
  aggregate (filteredRecs rows mese anno)

/-! ## The entry-flow start (`nuovo_start`, lines 115-140) -/

/-- `AUTHORIZED_USERS` (line 40). -/
def AUTHORIZED_USERS : List Nat := [362485425, 5967775955]

/-- `ConversationHandler.END` of the transport library. -/
def END : Int := -1

/-- `SELECT_TARGA` (line 44): the `SelectVehicle` conversation state. -/
def SELECT_TARGA : Int := 2

/-- The observable outcome of `nuovo_start`: the reply text, the inline
keyboard (rows of button labels) if one is attached, and the conversation
state returned to the handler. -/
structure NuovoOutcome where
  replyText : String
  keyboard : Option (List (List String))
  nextState : Int
  deriving DecidableEq, Repr

/-- `nuovo_start(update, context)`: refuse unauthorized users before
touching the store; otherwise offer the sorted distinct plates plus a
cancel button and enter `SELECT_TARGA`.  A store failure or a missing
`TARGA` column (a `KeyError` on `df['TARGA']`) raises into the `except`
clause. -/
def nuovo_start (userId : Nat) (fetch : FetchResult) : NuovoOutcome :=
  if userId ∉ AUTHORIZED_USERS then ⟨"⛔ Accesso negato", none, END⟩
  else
    match fetch with
    | .error _ => ⟨"❌ Errore di sistema", none, END⟩
    | .ok records =>
      if !colPresent (·.targa?) records then ⟨"❌ Errore di sistema", none, END⟩
      else
        let targhe := uniqueList (records.filterMap (·.targa?))
        let keyboard :=
          (List.insertionSort pyLe targhe).map (fun t => [t]) ++ [["❌ Annulla"]]
        ⟨"🚗 Seleziona targa:", some keyboard, SELECT_TARGA⟩

/-! ## Character-level lemmas -/

theorem char_toNat_inj {c d : Char} (h : c.toNat = d.toNat) : c = d :=
  Char.ext (UInt32.toNat.inj h)

theorem toNat_ofNat_valid (n : Nat) (h : n < 55296) : (Char.ofNat n).toNat = n := by
  have hv : n.isValidChar := Or.inl h
  rw [Char.ofNat, dif_pos hv]
  rfl

theorem upChar_toNat (c : Char) :
    (upChar c).toNat
      = if 97 ≤ c.toNat ∧ c.toNat ≤ 122 then c.toNat - 32 else c.toNat := by
  unfold upChar
  split
  · exact toNat_ofNat_valid _ (by omega)
  · rfl

theorem upChar_of_not_lower {c : Char} (h : ¬(97 ≤ c.toNat ∧ c.toNat ≤ 122)) :
    upChar c = c := if_neg h

theorem upChar_idem (c : Char) : upChar (upChar c) = upChar c := by
  by_cases h : 97 ≤ c.toNat ∧ c.toNat ≤ 122
  · have h1 : (upChar c).toNat = c.toNat - 32 := by rw [upChar_toNat, if_pos h]
    exact upChar_of_not_lower (by omega)
  · rw [upChar_of_not_lower h, upChar_of_not_lower h]

theorem isWhitespace_eq_false_of_alpha {c : Char}
    (h : 65 ≤ c.toNat ∧ c.toNat ≤ 122) : c.isWhitespace = false := by
  unfold Char.isWhitespace
  have hs : c ≠ ' ' := fun e => by rw [e] at h; exact absurd h (by decide)
  have ht : c ≠ '\t' := fun e => by rw [e] at h; exact absurd h (by decide)
  have hr : c ≠ '\r' := fun e => by rw [e] at h; exact absurd h (by decide)
  have hn : c ≠ '\n' := fun e => by rw [e] at h; exact absurd h (by decide)
  simp [hs, ht, hr, hn]

theorem isWhitespace_upChar (c : Char) :
    (upChar c).isWhitespace = c.isWhitespace := by
  by_cases h : 97 ≤ c.toNat ∧ c.toNat ≤ 122
  · have h1 : (upChar c).toNat = c.toNat - 32 := by rw [upChar_toNat, if_pos h]
    rw [isWhitespace_eq_false_of_alpha (by omega),
      isWhitespace_eq_false_of_alpha (by omega)]
  · rw [upChar_of_not_lower h]

theorem upChar_eq_space_iff (c : Char) : upChar c = ' ' ↔ c = ' ' := by
  by_cases h : 97 ≤ c.toNat ∧ c.toNat ≤ 122
  · have h1 : (upChar c).toNat = c.toNat - 32 := by rw [upChar_toNat, if_pos h]
    constructor
    · intro e
      have : (upChar c).toNat = 32 := by rw [e]; decide
      omega
    · intro e
      rw [e] at h
      exact absurd h (by decide)
  · rw [upChar_of_not_lower h]

/-! ## Order lemmas for the sort relations -/

theorem strLtB_irrefl : ∀ l : List Char, strLtB l l = false := by
  intro l
  induction l with
  | nil => rfl
  | cons c cs ih => simp [strLtB, ih]

theorem strLtB_asymm : ∀ {a b : List Char}, strLtB a b = true → strLtB b a = false := by
  intro a
  induction a with
  | nil =>
    intro b h
    cases b with
    | nil => simp [strLtB] at h
    | cons d ds => rfl
  | cons c cs ih =>
    intro b h
    cases b with
    | nil => simp [strLtB] at h
    | cons d ds =>
      simp only [strLtB] at h ⊢
      by_cases h1 : c.toNat < d.toNat
      · rw [if_neg (by omega), if_pos h1]
      · by_cases h2 : d.toNat < c.toNat
        · rw [if_neg h1, if_pos h2] at h
          cases h
        · rw [if_neg h1, if_neg h2] at h
          rw [if_neg h2, if_neg h1]
          exact ih h

theorem strLtB_eq_of_not : ∀ {a b : List Char},
    strLtB a b = false → strLtB b a = false → a = b := by
  intro a
  induction a with
  | nil =>
    intro b hab _
    cases b with
    | nil => rfl
    | cons d ds => simp [strLtB] at hab
  | cons c cs ih =>
    intro b hab hba
    cases b with
    | nil => simp [strLtB] at hba
    | cons d ds =>
      simp only [strLtB] at hab hba
      by_cases h1 : c.toNat < d.toNat
      · rw [if_pos h1] at hab; cases hab
      · by_cases h2 : d.toNat < c.toNat
        · rw [if_pos h2] at hba; cases hba
        · rw [if_neg h1, if_neg h2] at hab
          rw [if_neg h2, if_neg h1] at hba
          rw [char_toNat_inj (show c.toNat = d.toNat by omega), ih hab hba]

theorem strLtB_trans : ∀ {a b c : List Char},
    strLtB a b = true → strLtB b c = true → strLtB a c = true := by
  intro a
  induction a with
  | nil =>
    intro b c hab hbc
    cases b with
    | nil => simp [strLtB] at hab
    | cons d ds =>
      cases c with
      | nil => simp [strLtB] at hbc
      | cons e es => rfl
  | cons x xs ih =>
    intro b c hab hbc
    cases b with
    | nil => simp [strLtB] at hab
    | cons d ds =>
      cases c with
      | nil => simp [strLtB] at hbc
      | cons e es =>
        simp only [strLtB] at hab hbc ⊢
        by_cases h1 : x.toNat < d.toNat
        · by_cases h3 : d.toNat < e.toNat
          · rw [if_pos (by omega)]
          · by_cases h4 : e.toNat < d.toNat
            · rw [if_neg h3, if_pos h4] at hbc; cases hbc
            · rw [if_pos (by omega)]
        · by_cases h2 : d.toNat < x.toNat
          · rw [if_neg h1, if_pos h2] at hab; cases hab
          · rw [if_neg h1, if_neg h2] at hab
            by_cases h3 : d.toNat < e.toNat
            · rw [if_pos (by omega)]
            · by_cases h4 : e.toNat < d.toNat
              · rw [if_neg h3, if_pos h4] at hbc; cases hbc
              · rw [if_neg h3, if_neg h4] at hbc
                rw [if_neg (by omega), if_neg (by omega)]
                exact ih hab hbc

theorem string_eq_of_data_eq {a b : String} (h : a.data = b.data) : a = b := by
  cases a
  cases b
  exact congrArg String.mk h

theorem pyLe_of_pyLt {a b : String} (h : pyLt a b) : pyLe a b := strLtB_asymm h

theorem pyLe_refl (a : String) : pyLe a a := strLtB_irrefl a.data

theorem pyLt_or_eq_of_pyLe {a b : String} (h : pyLe a b) : pyLt a b ∨ a = b := by
  cases h2 : strLtB a.data b.data with
  | true => exact Or.inl h2
  | false => exact Or.inr (string_eq_of_data_eq (strLtB_eq_of_not h2 h))

instance : IsTotal String pyLe where
  total a b := by
    cases h : strLtB b.data a.data with
    | false => exact Or.inl h
    | true => exact Or.inr (strLtB_asymm h)

instance : IsTrans String pyLe where
  trans a b c hab hbc := by
    rcases pyLt_or_eq_of_pyLe hab with h1 | rfl
    · rcases pyLt_or_eq_of_pyLe hbc with h2 | rfl
      · exact strLtB_asymm (strLtB_trans h1 h2)
      · exact hab
    · exact hbc

instance : IsTotal (String × String) keyLE where
  total a b := by
    cases h1 : strLtB a.1.data b.1.data with
    | true => exact Or.inl (Or.inl h1)
    | false =>
      cases h2 : strLtB b.1.data a.1.data with
      | true => exact Or.inr (Or.inl h2)
      | false =>
        have he : a.1 = b.1 := string_eq_of_data_eq (strLtB_eq_of_not h1 h2)
        rcases total_of pyLe a.2 b.2 with h3 | h3
        · exact Or.inl (Or.inr ⟨he, h3⟩)
        · exact Or.inr (Or.inr ⟨he.symm, h3⟩)

theorem pyLt_trans {a b c : String} (h1 : pyLt a b) (h2 : pyLt b c) : pyLt a c :=
  strLtB_trans h1 h2

instance : IsTrans (String × String) keyLE where
  trans a b c hab hbc := by
    rcases hab with hab | ⟨hab, hab2⟩
    · rcases hbc with hbc | ⟨hbc, _⟩
      · exact Or.inl (pyLt_trans hab hbc)
      · exact Or.inl (hbc ▸ hab)
    · rcases hbc with hbc | ⟨hbc, hbc2⟩
      · exact Or.inl (hab ▸ hbc)
      · exact Or.inr ⟨hab.trans hbc, Trans.trans hab2 hbc2⟩

instance : IsTotal ReportGroup groupLE where
  total a b := by
    cases h1 : strLtB a.driver.data b.driver.data with
    | true => exact Or.inl (Or.inl h1)
    | false =>
      cases h2 : strLtB b.driver.data a.driver.data with
      | true => exact Or.inr (Or.inl h2)
      | false =>
        have he : a.driver = b.driver := string_eq_of_data_eq (strLtB_eq_of_not h1 h2)
        rcases Nat.le_total a.giorni b.giorni with h3 | h3
        · exact Or.inr (Or.inr ⟨he.symm, h3⟩)
        · exact Or.inl (Or.inr ⟨he, h3⟩)

instance : IsTrans ReportGroup groupLE where
  trans a b c hab hbc := by
    rcases hab with hab | ⟨hab, hab2⟩
    · rcases hbc with hbc | ⟨hbc, _⟩
      · exact Or.inl (pyLt_trans hab hbc)
      · exact Or.inl (hbc ▸ hab)
    · rcases hbc with hbc | ⟨hbc, hbc2⟩
      · exact Or.inl (hab ▸ hbc)
      · exact Or.inr ⟨hab.trans hbc, Nat.le_trans hbc2 hab2⟩

/-! ## String-transform lemmas -/

theorem map_upChar_idem (l : List Char) :
    (l.map upChar).map upChar = l.map upChar := by
  rw [List.map_map]
  exact List.map_congr_left (fun a _ => upChar_idem a)

theorem pyUpper_pyUpper (s : String) : pyUpper (pyUpper s) = pyUpper s :=
  congrArg String.mk (map_upChar_idem s.data)

theorem ws_comp_upChar :
    ((·.isWhitespace) ∘ upChar : Char → Bool) = (·.isWhitespace) :=
  funext isWhitespace_upChar

theorem stripData_map_upChar (l : List Char) :
    stripData (l.map upChar) = (stripData l).map upChar := by
  unfold stripData List.rdropWhile
  rw [List.dropWhile_map, ws_comp_upChar, ← List.map_reverse, List.dropWhile_map,
    ws_comp_upChar, ← List.map_reverse]

theorem pyStrip_pyUpper (s : String) : pyStrip (pyUpper s) = pyUpper (pyStrip s) :=
  congrArg String.mk (stripData_map_upChar s.data)

theorem dropWhile_rdropWhile_of_dropWhile_eq {p : Char → Bool} (m : List Char)
    (hm : m.dropWhile p = m) :
    (List.rdropWhile p m).dropWhile p = List.rdropWhile p m := by
  rw [List.dropWhile_eq_self_iff]
  intro hl
  obtain ⟨t, ht⟩ := List.rdropWhile_prefix (p := p) (l := m)
  have hm0 : 0 < m.length := by rw [← ht, List.length_append]; omega
  have h0 : (List.rdropWhile p m ++ t)[0]? = (List.rdropWhile p m)[0]? :=
    List.getElem?_append_left hl
  rw [ht] at h0
  have h1 : (List.rdropWhile p m)[0]? = some ((List.rdropWhile p m).get ⟨0, hl⟩) := by
    simp [List.getElem?_eq_getElem hl]
  have h2 : m[0]? = some (m.get ⟨0, hm0⟩) := by
    simp [List.getElem?_eq_getElem hm0]
  have hget : (List.rdropWhile p m).get ⟨0, hl⟩ = m.get ⟨0, hm0⟩ :=
    Option.some.inj (h1.symm.trans (h0.symm.trans h2))
  rw [hget]
  exact (List.dropWhile_eq_self_iff.mp hm) hm0

theorem stripData_idem (l : List Char) : stripData (stripData l) = stripData l := by
  unfold stripData
  rw [dropWhile_rdropWhile_of_dropWhile_eq _ (List.dropWhile_idempotent _ _),
    List.rdropWhile_idempotent]

theorem pyStrip_pyStrip (s : String) : pyStrip (pyStrip s) = pyStrip s :=
  congrArg String.mk (stripData_idem s.data)

theorem filter_ne_space_map_upChar (l : List Char) :
    (l.map upChar).filter (· ≠ ' ') = (l.filter (· ≠ ' ')).map upChar := by
  rw [List.filter_map]
  congr 1
  exact List.filter_congr (fun a _ => by
    simp only [Function.comp_apply]
    exact decide_eq_decide.mpr (not_congr (upChar_eq_space_iff a)))

theorem stripSpaces_pyUpper (s : String) :
    stripSpaces (pyUpper s) = pyUpper (stripSpaces s) :=
  congrArg String.mk (filter_ne_space_map_upChar s.data)

theorem stripSpaces_stripSpaces (s : String) :
    stripSpaces (stripSpaces s) = stripSpaces s := by
  show String.mk ((s.data.filter (· ≠ ' ')).filter (· ≠ ' '))
    = String.mk (s.data.filter (· ≠ ' '))
  refine congrArg String.mk ?_
  rw [List.filter_filter]
  exact List.filter_congr (fun a _ => Bool.and_self _)

/-- The `DRIVER` transform is idempotent: re-normalizing its output changes
nothing. -/
theorem normDriver_idem (c : Option String) :
    normDriver (some (normDriver c)) = normDriver c := by
  unfold normDriver astypeStr
  rw [pyStrip_pyUpper, pyUpper_pyUpper, pyStrip_pyStrip]

/-- The `TARGA` transform is idempotent: re-normalizing its output changes
nothing. -/
theorem normTarga_idem (c : Option String) :
    normTarga (some (normTarga c)) = normTarga c := by
  unfold normTarga astypeStr
  rw [stripSpaces_pyUpper, pyUpper_pyUpper, stripSpaces_stripSpaces]

/-! ## `uniqueList` lemmas -/

theorem mem_uniqueAux [DecidableEq α] (seen l : List α) (x : α) :
    x ∈ uniqueAux seen l ↔ x ∈ l ∧ x ∉ seen := by
  induction l generalizing seen with
  | nil => simp [uniqueAux]
  | cons a l ih =>
    rw [uniqueAux]
    split
    · next h =>
      rw [ih]
      simp only [List.mem_cons]
      constructor
      · rintro ⟨hx, hs⟩
        exact ⟨Or.inr hx, hs⟩
      · rintro ⟨hx | hx, hs⟩
        · exact absurd (hx ▸ h) hs
        · exact ⟨hx, hs⟩
    · next h =>
      simp only [List.mem_cons, ih, not_or]
      constructor
      · rintro (rfl | ⟨hx, hxa, hxs⟩)
        · exact ⟨Or.inl rfl, h⟩
        · exact ⟨Or.inr hx, hxs⟩
      · rintro ⟨rfl | hx, hs⟩
        · exact Or.inl rfl
        · by_cases hxa : x = a
          · exact Or.inl hxa
          · exact Or.inr ⟨hx, hxa, hs⟩

theorem nodup_uniqueAux [DecidableEq α] (seen l : List α) :
    (uniqueAux seen l).Nodup := by
  induction l generalizing seen with
  | nil => simp [uniqueAux]
  | cons a l ih =>
    rw [uniqueAux]
    split
    · exact ih seen
    · rw [List.nodup_cons]
      refine ⟨?_, ih _⟩
      intro hmem
      exact ((mem_uniqueAux _ _ _).mp hmem).2 (List.mem_cons_self _ _)

theorem mem_uniqueList [DecidableEq α] (l : List α) (x : α) :
    x ∈ uniqueList l ↔ x ∈ l := by
  rw [uniqueList, mem_uniqueAux]
  simp

theorem nodup_uniqueList [DecidableEq α] (l : List α) : (uniqueList l).Nodup :=
  nodup_uniqueAux [] l

/-! ## Partition counting -/

theorem sum_indicator_zero [DecidableEq β] (ks : List β) (x : β) (hx : x ∉ ks) :
    (ks.map (fun k => if x = k then 1 else 0)).sum = 0 := by
  induction ks with
  | nil => rfl
  | cons k ks ih =>
    simp only [List.map_cons, List.sum_cons]
    rw [if_neg (fun e => hx (List.mem_cons.mpr (Or.inl e))),
      ih (fun h => hx (List.mem_cons_of_mem _ h))]

theorem sum_indicator_one [DecidableEq β] (ks : List β) (x : β)
    (hnd : ks.Nodup) (hx : x ∈ ks) :
    (ks.map (fun k => if x = k then 1 else 0)).sum = 1 := by
  induction ks with
  | nil => cases hx
  | cons k ks ih =>
    simp only [List.map_cons, List.sum_cons]
    rw [List.nodup_cons] at hnd
    by_cases e : x = k
    · rw [if_pos e, sum_indicator_zero ks x (fun h => hnd.1 (e ▸ h))]
    · rw [if_neg e]
      rcases List.mem_cons.mp hx with e' | hx'
      · exact absurd e' e
      · rw [ih hnd.2 hx']

/-- Summing, over a duplicate-free list of keys covering all of `l`, the
number of elements of `l` at each key recovers the length of `l`. -/
theorem sum_filter_length [DecidableEq β] (f : α → β) (l : List α) (ks : List β)
    (hnd : ks.Nodup) (hall : ∀ a ∈ l, f a ∈ ks) :
    (ks.map (fun k => (l.filter (fun a => f a = k)).length)).sum = l.length := by
  induction l with
  | nil => simp
  | cons a l ih =>
    have hsplit : ∀ k : β, ((a :: l).filter (fun x => f x = k)).length
        = (if f a = k then 1 else 0) + (l.filter (fun x => f x = k)).length := by
      intro k
      by_cases e : f a = k
      · rw [List.filter_cons_of_pos (by simpa using e), if_pos e, List.length_cons]
        omega
      · rw [List.filter_cons_of_neg (by simpa using e), if_neg e]
        omega
    calc (ks.map (fun k => ((a :: l).filter (fun x => f x = k)).length)).sum
        = (ks.map (fun k =>
            (if f a = k then 1 else 0) + (l.filter (fun x => f x = k)).length)).sum := by
          exact congrArg List.sum (List.map_congr_left (fun k _ => hsplit k))
      _ = (ks.map (fun k => if f a = k then 1 else 0)).sum
            + (ks.map (fun k => (l.filter (fun x => f x = k)).length)).sum := by
          rw [← List.sum_map_add]
      _ = 1 + l.length := by
          rw [sum_indicator_one ks (f a) hnd (hall a (List.mem_cons_self a l)),
            ih (fun x hx => hall x (List.mem_cons_of_mem _ hx))]
      _ = (a :: l).length := by rw [List.length_cons]; omega

/-! ## Lemmas about `aggregate` -/

theorem groupRows_eq_filter_keyOf (recs : List NormRow) (k : String × String) :
    groupRows recs k = recs.filter (fun r => keyOf r = k) := by
  unfold groupRows
  exact List.filter_congr (fun r _ =>
    decide_eq_decide.mpr (by simp [keyOf, Prod.ext_iff]))

/-- The sum of `GIORNI` over all groups is the number of aggregated rows. -/
theorem aggregate_sum_giorni (recs : List NormRow) :
    ((aggregate recs).map (·.giorni)).sum = recs.length := by
  unfold aggregate
  have h1 : ((List.insertionSort groupLE
        ((List.insertionSort keyLE (uniqueList (recs.map keyOf))).map
          (mkGroup recs))).map (·.giorni)).sum
      = (((List.insertionSort keyLE (uniqueList (recs.map keyOf))).map
          (mkGroup recs)).map (·.giorni)).sum :=
    ((List.perm_insertionSort groupLE _).map (·.giorni)).sum_eq
  rw [h1, List.map_map]
  have h2 : ((List.insertionSort keyLE (uniqueList (recs.map keyOf))).map
        ((·.giorni) ∘ mkGroup recs)).sum
      = ((uniqueList (recs.map keyOf)).map ((·.giorni) ∘ mkGroup recs)).sum :=
    ((List.perm_insertionSort keyLE _).map _).sum_eq
  rw [h2]
  have h3 : (uniqueList (recs.map keyOf)).map ((·.giorni) ∘ mkGroup recs)
      = (uniqueList (recs.map keyOf)).map
          (fun k => (recs.filter (fun r => keyOf r = k)).length) :=
    List.map_congr_left (fun k _ => by
      simp only [Function.comp_apply, mkGroup, groupRows_eq_filter_keyOf])
  rw [h3]
  exact sum_filter_length keyOf recs _ (nodup_uniqueList _)
    (fun a ha => (mem_uniqueList _ _).mpr (List.mem_map_of_mem keyOf ha))

/-- Every aggregation output group is the aggregate of its own key. -/
theorem mem_aggregate (recs : List NormRow) (g : ReportGroup)
    (hg : g ∈ aggregate recs) : g = mkGroup recs (g.driver, g.targa) := by
  unfold aggregate at hg
  rw [List.mem_insertionSort] at hg
  obtain ⟨k, _, rfl⟩ := List.mem_map.mp hg
  cases k
  rfl

/-- The aggregation output is sorted by the `sort_values` order. -/
theorem aggregate_sorted (recs : List NormRow) :
    (aggregate recs).Sorted groupLE := by
  unfold aggregate
  exact List.sorted_insertionSort groupLE _

/-! ## Lemmas about `normalize` -/

theorem normalizeRow_eq_none_iff (r : RawRow) :
    normalizeRow r = none ↔ toDatetime r.data? = none := by
  unfold normalizeRow
  cases toDatetime r.data? <;> simp

/-- The re-reading of a normalized row as a raw row: the date cell holds the
parsed timestamp, the identity cells hold the normalized strings. -/
def recToRaw (r : NormRow) : RawRow :=
  ⟨some (.date r.data), some r.driver, some r.targa⟩

theorem normalizeRow_recToRaw {rows : List RawRow} {r : NormRow}
    (hr : r ∈ rows.filterMap normalizeRow) :
    normalizeRow (recToRaw r) = some r := by
  rw [List.mem_filterMap] at hr
  obtain ⟨a, _, ha⟩ := hr
  unfold normalizeRow at ha
  cases hd : toDatetime a.data? with
  | none => rw [hd] at ha; cases ha
  | some d =>
    rw [hd] at ha
    have := Option.some.inj ha
    subst this
    simp [normalizeRow, recToRaw, toDatetime, normDriver_idem, normTarga_idem]

theorem filterMap_eq_self_of_some {f : α → Option α} :
    ∀ {l : List α}, (∀ x ∈ l, f x = some x) → l.filterMap f = l := by
  intro l h
  induction l with
  | nil => rfl
  | cons a l ih =>
    rw [List.filterMap_cons_some (h a (List.mem_cons_self a l)),
      ih (fun x hx => h x (List.mem_cons_of_mem _ hx))]

/-! ## Claim inputs -/

/-- Two identical raw rows: the same driver and plate on the same day. -/
def dupRows : List RawRow :=
  [⟨some (.str "2024-03-05"), some "MARIO", some "AB123CD"⟩,
   ⟨some (.str "2024-03-05"), some "MARIO", some "AB123CD"⟩]

/-- The spec's worked scenario rows. -/
def sampleRows : List RawRow :=
  [⟨some (.str "2024-03-05"), some " mario ", some "ab123cd"⟩,
   ⟨some (.str "2024-03-12"), some "MARIO", some "AB123CD"⟩,
   ⟨some (.str "2024-03-12"), some "LUCA", some "XY999ZZ"⟩]

/-- The number of distinct calendar days on which a (driver, plate) pair has
an event among the given records — the claim's reading of `dayCount`. -/
def distinctDayCount (recs : List NormRow) (driver targa : String) : Nat :=
  (uniqueList ((recs.filter (fun r => r.driver = driver ∧ r.targa = targa)).map
    (fun r => r.data.day))).length

/-! ## C1 -/

/-- C1 counterexample: with the same (driver, plate, day) event recorded
twice, the produced group has `GIORNI = 2` (the `size` aggregate counts
rows) while the pair has exactly one distinct event day, so `dayCount`
is not the number of distinct calendar days. -/
theorem C1_counterexample :
    ¬ (∀ g ∈ reportGroupsOf dupRows 3 2024,
        g.giorni
          = distinctDayCount (filteredRecs dupRows 3 2024) g.driver g.targa) := by
  decide

/-- C1 (amended): each group's `dayCount` is the number of events (rows) of
that (driver, plate) pair in the filtered period — not the number of
distinct days — and consequently the sum of `dayCount` over the groups
equals the number of filtered rows, i.e. the number of (driver, plate, day)
triples counted with multiplicity. -/
theorem C1_dayCount_amended (rows : List RawRow) (mese anno : Nat) :
    ((reportGroupsOf rows mese anno).map (·.giorni)).sum
      = (filteredRecs rows mese anno).length ∧
    ∀ g ∈ reportGroupsOf rows mese anno,
      g.giorni
        = (groupRows (filteredRecs rows mese anno) (g.driver, g.targa)).length := by
  constructor
  · exact aggregate_sum_giorni _
  · intro g hg
    have h := mem_aggregate _ g hg
    conv_lhs => rw [h]
    rfl

/-- C1 witness: the amended statement evaluated on the spec's scenario. -/
theorem C1_dayCount_amended_witness :
    (⟨"LUCA", "XY999ZZ", 1, [12]⟩ : ReportGroup) ∈ reportGroupsOf sampleRows 3 2024 ∧
    (⟨"LUCA", "XY999ZZ", 1, [12]⟩ : ReportGroup).giorni
      = (groupRows (filteredRecs sampleRows 3 2024) ("LUCA", "XY999ZZ")).length :=
  ⟨by decide, (C1_dayCount_amended sampleRows 3 2024).2 _ (by decide)⟩

/-! ## C4 -/

/-- C4: the output groups are sorted by driver ascending, and adjacent
groups with the same driver have non-increasing day counts. -/
theorem C4_output_sorted (rows : List RawRow) (mese anno : Nat) :
    (reportGroupsOf rows mese anno).Chain'
      (fun a b => pyLe a.driver b.driver ∧ (a.driver = b.driver → b.giorni ≤ a.giorni)) := by
  unfold reportGroupsOf
  have hc : (aggregate (filteredRecs rows mese anno)).Chain' groupLE :=
    List.Pairwise.chain' (aggregate_sorted (filteredRecs rows mese anno))
  refine hc.imp (fun a b hab => ?_)
  constructor
  · rcases hab with h | ⟨h, _⟩
    · exact pyLe_of_pyLt h
    · exact h ▸ pyLe_refl a.driver
  · intro e
    rcases hab with h | ⟨_, h⟩
    · have h' : pyLt b.driver b.driver := e ▸ h
      rw [pyLt, strLtB_irrefl] at h'
      cases h'
    · exact h

/-! ## C8 -/

/-- C8: the normalization step is idempotent — normalizing the normalized
records again returns them unchanged and drops nothing. -/
theorem C8_normalize_idempotent (rows : List RawRow) :
    normalize ((normalize rows).1.map recToRaw) = ((normalize rows).1, 0) := by
  have h1 : ((rows.filterMap normalizeRow).map recToRaw).filterMap normalizeRow
      = rows.filterMap normalizeRow := by
    rw [List.filterMap_map]
    exact filterMap_eq_self_of_some (fun x hx => normalizeRow_recToRaw hx)
  simp [normalize, h1]

/-! ## C2 -/

/-- C2 counterexample: a row whose driver is empty after normalization is
not dropped — `dropna` discards only null cells, and after `astype(str)`
the empty string is a string, not `NaN` — so the row is kept and the
dropped count stays zero, contradicting the claimed exclusion. -/
theorem C2_counterexample :
    normDriver (some "") = "" ∧
    normalize [⟨some (.str "2024-03-05"), some "", some "AB123CD"⟩]
      = ([⟨⟨2024, 3, 5⟩, "", "AB123CD"⟩], 0) := by
  decide

/-- C2 (amended): a row is excluded and counted in the dropped count
exactly when its date is unparsable; an empty driver or plate after the
transforms never causes exclusion. -/
theorem C2_dropped_amended (rows : List RawRow) :
    (normalize rows).2
      = (rows.filter (fun r => (toDatetime r.data?).isNone)).length ∧
    (normalize rows).1.length
      = (rows.filter (fun r => (toDatetime r.data?).isSome)).length ∧
    ∀ r ∈ rows, (normalizeRow r = none ↔ toDatetime r.data? = none) := by
  have h1 : (rows.filterMap normalizeRow).length
      = List.countP (fun r => (toDatetime r.data?).isSome) rows := by
    rw [List.length_filterMap_eq_countP]
    exact List.countP_congr (fun r _ => by
      unfold normalizeRow
      cases toDatetime r.data? <;> simp)
  have h2 : rows.length = List.countP (fun r => (toDatetime r.data?).isSome) rows
      + List.countP (fun r => (toDatetime r.data?).isNone) rows := by
    rw [List.length_eq_countP_add_countP (fun r => (toDatetime r.data?).isSome)]
    congr 1
    exact List.countP_congr (fun r _ => by cases toDatetime r.data? <;> simp)
  refine ⟨?_, ?_, fun r _ => normalizeRow_eq_none_iff r⟩
  · show rows.length - (rows.filterMap normalizeRow).length = _
    rw [h1, ← List.countP_eq_length_filter]
    omega
  · show (rows.filterMap normalizeRow).length = _
    rw [h1, ← List.countP_eq_length_filter]

/-- C2 witness: the amended statement evaluated on a one-row set with an
unparsable date. -/
theorem C2_dropped_amended_witness :
    (normalizeRow (⟨some (.str "nodate"), some "MARIO", some "AB123CD"⟩ : RawRow) = none
      ↔ toDatetime
          (⟨some (.str "nodate"), some "MARIO", some "AB123CD"⟩ : RawRow).data? = none) :=
  (C2_dropped_amended
    [⟨some (.str "nodate"), some "MARIO", some "AB123CD"⟩]).2.2 _ (by decide)

/-! ## C3 -/

/-- C3: with a non-empty record set, a missing required column (`DATA`,
`DRIVER` or `TARGA`) makes the whole report operation fail with the
missing-headers outcome — no per-row dropping, no partial report. -/
theorem C3_missing_columns (rows : List RawRow) (mese anno : Nat)
    (hne : rows ≠ [])
    (hmiss : colPresent (·.data?) rows = false
      ∨ colPresent (·.driver?) rows = false
      ∨ colPresent (·.targa?) rows = false) :
    generate_report (.ok rows) mese anno = ("", "❌ Intestazioni mancanti") := by
  have hcols : hasRequiredCols rows = false := by
    unfold hasRequiredCols
    rcases hmiss with h | h | h <;> simp [h]
  cases rows with
  | nil => exact absurd rfl hne
  | cons a l => simp [generate_report, hcols]

/-- C3 witness: a row set whose mappings lack the `DATA` key. -/
theorem C3_missing_columns_witness :
    generate_report (.ok [⟨none, some "MARIO", some "AB123CD"⟩]) 3 2024
      = ("", "❌ Intestazioni mancanti") :=
  C3_missing_columns _ 3 2024 (by decide) (Or.inl (by decide))

/-! ## C5 -/

theorem nessun_dato_msgs_ne (mese anno : Nat) :
    ("ℹ️ Nessun dato trovato" : String)
      ≠ "ℹ️ Nessun dato per " ++ pad2 mese ++ "/" ++ toString anno := by
  intro h
  have hd : ("ℹ️ Nessun dato trovato" : String).data.take 16
      = ("ℹ️ Nessun dato per " ++ pad2 mese ++ "/" ++ toString anno).data.take 16 :=
    congrArg (fun s => s.data.take 16) h
  rw [String.data_append, String.data_append, String.data_append,
    List.append_assoc, List.append_assoc,
    List.take_eq_left_iff.mpr
      (Or.inr (by decide : 16 ≤ ("ℹ️ Nessun dato per " : String).data.length))] at hd
  exact absurd hd (by decide)

/-- C5: the report distinguishes the empty store from an empty period: an
empty store yields the no-data-at-all outcome, a non-empty store whose
records miss the requested month/year yields the no-data-for-period
outcome, and the two status texts differ. -/
theorem C5_empty_outcomes (rows : List RawRow) (mese anno : Nat) :
    generate_report (.ok []) mese anno = ("", "ℹ️ Nessun dato trovato") ∧
    (rows ≠ [] → hasRequiredCols rows = true →
      filteredRecs rows mese anno = [] →
      generate_report (.ok rows) mese anno
        = ("", "ℹ️ Nessun dato per " ++ pad2 mese ++ "/" ++ toString anno)) ∧
    ("ℹ️ Nessun dato trovato" : String)
      ≠ "ℹ️ Nessun dato per " ++ pad2 mese ++ "/" ++ toString anno := by
  refine ⟨rfl, ?_, nessun_dato_msgs_ne mese anno⟩
  intro hne hcols hper
  unfold filteredRecs at hper
  cases rows with
  | nil => exact absurd rfl hne
  | cons a l => simp [generate_report, hcols, hper]

/-- C5 witness: a March-only record set queried for April, next to the
empty store. -/
theorem C5_empty_outcomes_witness :
    generate_report (.ok [⟨some (.str "2024-03-05"), some "MARIO", some "AB123CD"⟩]) 4 2024
      = ("", "ℹ️ Nessun dato per " ++ pad2 4 ++ "/" ++ toString 2024) :=
  (C5_empty_outcomes [⟨some (.str "2024-03-05"), some "MARIO", some "AB123CD"⟩] 4 2024).2.1
    (by decide) (by decide) (by decide)

/-! ## C6 -/

/-- The plate normalization as the claim words it: remove all whitespace
characters, then uppercase. -/
def specPlateNorm (s : String) : String :=
  pyUpper ⟨s.data.filter (fun c => !c.isWhitespace)⟩

/-- The driver normalization as the claim words it: trim, then uppercase. -/
def specDriverNorm (s : String) : String := pyUpper (pyStrip s)

/-- C6 counterexample: a tab inside the plate survives the source's
`replace(' ', '')`, which removes only space characters, so the normalized
plate is not the all-whitespace-stripped uppercase of the raw value. -/
theorem C6_counterexample :
    normTarga (some "ab\tcd") = "AB\tCD" ∧
    specPlateNorm "ab\tcd" = "ABCD" ∧
    normTarga (some "ab\tcd") ≠ specPlateNorm "ab\tcd" := by
  decide

/-- C6 (amended): the driver half holds as claimed (trim then uppercase);
the plate transform removes only the space character `U+0020`, agreeing
with all-whitespace stripping exactly on raw plates whose whitespace
consists of spaces. -/
theorem C6_plate_amended (s t : String) :
    normDriver (some s) = specDriverNorm s ∧
    ((∀ c ∈ t.data, c.isWhitespace = true → c = ' ') →
      normTarga (some t) = specPlateNorm t) := by
  refine ⟨rfl, fun h => ?_⟩
  unfold normTarga specPlateNorm astypeStr stripSpaces
  refine congrArg (fun l => pyUpper (String.mk l)) ?_
  refine List.filter_congr (fun c hc => ?_)
  cases hw : c.isWhitespace with
  | true => rw [h c hc hw]; simp
  | false =>
    have hne : c ≠ ' ' := fun e => by
      rw [e] at hw
      exact absurd hw (by decide)
    simp [hne, hw]

/-- C6 witness: a plate whose only whitespace is a space. -/
theorem C6_plate_amended_witness :
    (∀ c ∈ ("ab cd" : String).data, c.isWhitespace = true → c = ' ') ∧
    normTarga (some "ab cd") = specPlateNorm "ab cd" :=
  ⟨by decide, (C6_plate_amended "x" "ab cd").2 (by decide)⟩

/-! ## C7 -/

/-- C7: an unauthorized user is refused before the store is read: the
outcome is the refusal text with no keyboard, it is the same whatever the
store would have returned, and the conversation ends instead of entering
the `SELECT_TARGA` state, so no session is created. -/
theorem C7_access_denied (userId : Nat) (fetch fetch' : FetchResult)
    (h : userId ∉ AUTHORIZED_USERS) :
    nuovo_start userId fetch = ⟨"⛔ Accesso negato", none, END⟩ ∧
    nuovo_start userId fetch = nuovo_start userId fetch' ∧
    (nuovo_start userId fetch).nextState ≠ SELECT_TARGA := by
  have h1 : ∀ f : FetchResult, nuovo_start userId f = ⟨"⛔ Accesso negato", none, END⟩ := by
    intro f
    unfold nuovo_start
    rw [if_pos h]
  refine ⟨h1 fetch, (h1 fetch).trans (h1 fetch').symm, ?_⟩
  rw [h1 fetch]
  decide

/-- C7 witness: a user id outside the allow-list, against two different
store behaviors. -/
theorem C7_access_denied_witness :
    (999 ∉ AUTHORIZED_USERS) ∧
    nuovo_start 999 (.ok []) = ⟨"⛔ Accesso negato", none, END⟩ ∧
    nuovo_start 999 (.ok []) = nuovo_start 999 (.error "down") :=
  have h := C7_access_denied 999 (.ok []) (.error "down") (by decide)
  ⟨by decide, h.1, h.2.1⟩

/-! ## C9 -/

/-- C9: the report operation is total over its outcome pair: the store
failure branch returns an empty report with the error in the status, and
in every case a non-empty report text comes only with the success
status. -/
theorem C9_total_outcome (fetch : FetchResult) (mese anno : Nat) :
    (∀ e, generate_report (.error e) mese anno = ("", "❌ Errore: " ++ e)) ∧
    ((generate_report fetch mese anno).1 = ""
      ∨ (generate_report fetch mese anno).2 = "✅ Report generato") := by
  refine ⟨fun _ => rfl, ?_⟩
  cases fetch with
  | error e => exact Or.inl rfl
  | ok rows =>
    simp only [generate_report]
    split_ifs <;> simp

/-! ## C10 -/

/-- C10: for an authorized user, when the `TARGA` column exists the offered
keyboard is exactly the distinct non-null plate values, in ascending
order, one per row, followed by a single cancel row, and the conversation
enters `SELECT_TARGA`. -/
theorem C10_keyboard (userId : Nat) (rows : List RawRow)
    (hauth : userId ∈ AUTHORIZED_USERS)
    (hcol : colPresent (·.targa?) rows = true) :
    ∃ plates : List String,
      nuovo_start userId (.ok rows)
        = ⟨"🚗 Seleziona targa:",
            some (plates.map (fun t => [t]) ++ [["❌ Annulla"]]), SELECT_TARGA⟩ ∧
      plates.Nodup ∧
      (∀ t, t ∈ plates ↔ some t ∈ rows.map (·.targa?)) ∧
      plates.Sorted pyLe := by
  refine ⟨List.insertionSort pyLe (uniqueList (rows.filterMap (·.targa?))),
    ?_, ?_, ?_, List.sorted_insertionSort pyLe _⟩
  · unfold nuovo_start
    rw [if_neg (not_not_intro hauth)]
    simp [hcol]
  · exact (List.perm_insertionSort pyLe _).symm.nodup (nodup_uniqueList _)
  · intro t
    rw [List.mem_insertionSort, mem_uniqueList, List.mem_filterMap, List.mem_map]

/-- C10 witness: an authorized user over the scenario rows. -/
theorem C10_keyboard_witness :
    (362485425 ∈ AUTHORIZED_USERS) ∧
    colPresent (·.targa?) sampleRows = true ∧
    ∃ plates : List String,
      nuovo_start 362485425 (.ok sampleRows)
        = ⟨"🚗 Seleziona targa:",
            some (plates.map (fun t => [t]) ++ [["❌ Annulla"]]), SELECT_TARGA⟩ ∧
      plates.Nodup ∧
      (∀ t, t ∈ plates ↔ some t ∈ sampleRows.map (·.targa?)) ∧
      plates.Sorted pyLe :=
  ⟨by decide, by decide, C10_keyboard 362485425 sampleRows (by decide) (by decide)⟩

end FlottaBot
